import Mathlib

/-!
Verification development for the Mimir temporal knowledge store.

The data model (`Fact`, `Entity`, `Message`, `Conversation`) is translated
from the core type declarations of the repository.  The runtime helpers
(`endConversation`, `chooseConversation`) are translated from the core
runtime, and `splitMessageFuel` is a fuel-indexed translation of the
Telegram bot's `splitMessage` loop.

The `MemoryEngine` store itself (append log, materialized fact view,
entity table, conversation archive, query and invalidation engines) is not
present in the repository sources; every definition below whose doc
comment starts with "Modelled from the spec:" is a faithful rendering of
the specification's contract for that missing component.

Timestamps are modelled as natural-number milliseconds; JavaScript
`Date.now()` subtraction is modelled in `Int` where underflow matters.
-/

namespace Mimir

/-- Provenance of a fact, from the core types file. -/
inductive FactSource
  | conversation
  | observation
  | inference
  | userStated
deriving DecidableEq, Repr

/-- A temporal fact, from the core types file: subject-predicate-object with
`validAt` assertion time and optional `invalidAt` (absent means still true). -/
structure Fact where
  id : String
  subject : String
  predicate : String
  object : String
  validAt : Nat
  invalidAt : Option Nat
  confidence : ℚ
  source : FactSource
  context : Option String
deriving DecidableEq

/-- Kind of a named entity, from the core types file. -/
inductive EntityType
  | person
  | project
  | place
  | concept
  | preference
  | event
  | other
deriving DecidableEq, Repr

/-- An entity in the knowledge graph, from the core types file.  The
attribute map is modelled as an association list. -/
structure Entity where
  id : String
  name : String
  type : EntityType
  attributes : List (String × String)
  firstSeen : Nat
  lastSeen : Nat
deriving DecidableEq

/-- Role of a conversation message, from the core types file. -/
inductive Role
  | user
  | assistant
  | system
deriving DecidableEq, Repr

/-- A conversation message, from the core types file. -/
structure Message where
  role : Role
  content : String
  timestamp : Nat
deriving DecidableEq

/-- A conversation session, from the core types file. -/
structure Conversation where
  id : String
  startedAt : Nat
  endedAt : Option Nat
  messages : List Message
  summary : Option String
deriving DecidableEq

/-- Modelled from the spec: the two durable fact-log event kinds of the
append log, `Assert(Fact)` and `Invalidate(factId, invalidAt)`. -/
inductive FactEvent
  | assert (fact : Fact)
  | invalidate (factId : String) (invalidAt : Nat)
deriving DecidableEq

/-- Modelled from the spec: the store state.  `log` is the append-only fact
journal (single source of truth), `facts` the in-memory materialized view,
`entities` the entity table and `conversations` the conversation archive. -/
structure MemoryEngine where
  log : List FactEvent
  facts : List Fact
  entities : List Entity
  conversations : List Conversation
deriving DecidableEq

/-! ### Text helpers: lowercasing, tokenization, substring matching -/

/-- Lowercased character list of a string (JavaScript `toLowerCase`,
modelled per character). -/
def lowerStr (s : String) : List Char := s.data.map Char.toLower

/-- Accumulating tokenizer: splits a character list at non-alphanumeric
characters, dropping empty tokens. -/
def splitTokensAux : List Char → List Char → List (List Char)
  | [], acc => if acc.isEmpty then [] else [acc.reverse]
  | c :: cs, acc =>
    if c.isAlphanum then splitTokensAux cs (c :: acc)
    else if acc.isEmpty then splitTokensAux cs []
    else acc.reverse :: splitTokensAux cs []

/-- Modelled from the spec: tokenize text "to lowercase word sets". -/
def tokens (s : String) : List (List Char) := splitTokensAux (lowerStr s) []

/-- The searchable text of a fact: subject, predicate and object. -/
def factText (f : Fact) : String := f.subject ++ " " ++ f.predicate ++ " " ++ f.object

/-- Modelled from the spec: relevance score of a fact against a query,
"score = count of shared tokens" between the two lowercase word sets. -/
def score (q : String) (f : Fact) : Nat :=
  ((tokens q).dedup.filter (fun t => decide (t ∈ tokens (factText f)))).length

/-- Substring containment on character lists (JavaScript `includes`). -/
def containsSub (hay needle : List Char) : Bool :=
  (List.range (hay.length + 1)).any (fun i => needle.isPrefixOf (hay.drop i))

/-- Modelled from the spec: the `searchFacts` matching rule, a
case-insensitive substring match across subject/predicate/object. -/
def matchesTopic (f : Fact) (topic : String) : Bool :=
  containsSub (lowerStr f.subject) (lowerStr topic) ||
  containsSub (lowerStr f.predicate) (lowerStr topic) ||
  containsSub (lowerStr f.object) (lowerStr topic)

/-! ### Append log and replay -/

/-- Modelled from the spec: effect of one replayed log event on the fact
view.  An `assert` appends the fact; an `invalidate` stamps `invalidAt` on
the still-valid facts with the given id (`invalidAt`, once set, is never
unset and never changed). -/
def applyEvent (facts : List Fact) : FactEvent → List Fact
  | .assert f => facts ++ [f]
  | .invalidate fid t =>
    facts.map fun f =>
      if f.invalidAt.isNone && f.id == fid then { f with invalidAt := some t } else f

/-- Modelled from the spec: `replay()` folds the ordered event log into the
materialized fact view at load time. -/
def replay (log : List FactEvent) : List Fact := log.foldl applyEvent []

/-- Modelled from the spec: out-of-range confidence is clamped to [0,1],
never rejected. -/
def clamp01 (x : ℚ) : ℚ := max 0 (min 1 x)

/-- Modelled from the spec: normalization applied when a fact is asserted —
confidence clamped, lifecycle starting in the Valid state (`invalidAt`
absent). -/
def normalizeFact (f : Fact) : Fact :=
  { f with confidence := clamp01 f.confidence, invalidAt := none }

/-- Modelled from the spec: asserting a fact appends an `Assert` event to
the durable log and reflects it in the in-memory view (write-through). -/
def assertFact (s : MemoryEngine) (f : Fact) : MemoryEngine :=
  { s with
    log := s.log ++ [FactEvent.assert (normalizeFact f)]
    facts := s.facts ++ [normalizeFact f] }

/-- Modelled from the spec: `invalidateFacts(topic)` finds all
currently-valid facts matching `topic` via the `searchFacts` substring
rule, appends an `Invalidate` event with `invalidAt = now` for each, marks
them invalid in the view, and returns the count invalidated. -/
def invalidateFacts (s : MemoryEngine) (topic : String) (now : Nat) :
    MemoryEngine × Nat :=
  let matched := s.facts.filter fun f => f.invalidAt.isNone && matchesTopic f topic
  ({ s with
      log := s.log ++ matched.map fun f => FactEvent.invalidate f.id now
      facts := s.facts.map fun f =>
        if f.invalidAt.isNone && matchesTopic f topic then
          { f with invalidAt := some now }
        else f },
    matched.length)

/-! ### Query engine -/

/-- Relevance ranking: higher score first, ties broken by more recent
`validAt`. -/
def RelRank (q : String) (f g : Fact) : Prop :=
  score q g < score q f ∨ (score q f = score q g ∧ g.validAt ≤ f.validAt)

instance (q : String) : DecidableRel (RelRank q) := fun f g => by
  unfold RelRank
  exact inferInstance

instance (q : String) : IsTotal Fact (RelRank q) where
  total f g := by
    unfold RelRank
    rcases Nat.lt_trichotomy (score q f) (score q g) with h | h | h
    · exact Or.inr (Or.inl h)
    · rcases Nat.le_total g.validAt f.validAt with h2 | h2
      · exact Or.inl (Or.inr ⟨h, h2⟩)
      · exact Or.inr (Or.inr ⟨h.symm, h2⟩)
    · exact Or.inl (Or.inl h)

instance (q : String) : IsTrans Fact (RelRank q) where
  trans a b c hab hbc := by
    unfold RelRank at *
    rcases hab with h1 | ⟨h1, h1'⟩ <;> rcases hbc with h2 | ⟨h2, h2'⟩
    · exact Or.inl (by omega)
    · exact Or.inl (by omega)
    · exact Or.inl (by omega)
    · exact Or.inr ⟨by omega, Nat.le_trans h2' h1'⟩

/-- Recency ranking: more recent `validAt` first. -/
def RecRank (f g : Fact) : Prop := g.validAt ≤ f.validAt

instance : DecidableRel RecRank := fun f g => by
  unfold RecRank
  exact inferInstance

instance : IsTotal Fact RecRank where
  total f g := Nat.le_total g.validAt f.validAt

instance : IsTrans Fact RecRank where
  trans _ _ _ hab hbc := Nat.le_trans hbc hab

/-- Modelled from the spec: `searchRelevantFacts(queryText, limit)` ranks
currently-valid facts by keyword-overlap score, ties by recency of
`validAt`, excluding facts with zero overlap even if under `limit`. -/
def searchRelevantFacts (s : MemoryEngine) (q : String) (limit : Nat) : List Fact :=
  (((s.facts.filter fun f => f.invalidAt.isNone && decide (0 < score q f)).insertionSort
    (RelRank q)).take limit)

/-- Modelled from the spec: `getRecentFacts(limit)`, currently-valid facts
ordered by `validAt` descending. -/
def getRecentFacts (s : MemoryEngine) (limit : Nat) : List Fact :=
  (((s.facts.filter fun f => f.invalidAt.isNone).insertionSort RecRank).take limit)

/-- Modelled from the spec: the "preference vocabulary" against which a
fact's predicate is matched. -/
def preferenceVocab : List String :=
  ["likes", "prefers", "loves", "hates", "dislikes", "enjoys", "wants", "favorite"]

/-- Modelled from the spec: a stated preference has source `user-stated`, or
a predicate matching the preference vocabulary. -/
def isPreference (f : Fact) : Bool :=
  decide (f.source = FactSource.userStated) ||
  preferenceVocab.any fun p => containsSub (lowerStr f.predicate) (lowerStr p)

/-- Modelled from the spec: `getPreferences(limit)`, currently-valid
preference facts, most recent first. -/
def getPreferences (s : MemoryEngine) (limit : Nat) : List Fact :=
  (((s.facts.filter fun f => f.invalidAt.isNone && isPreference f).insertionSort
    RecRank).take limit)

/-- Modelled from the spec: `getAllFacts()`, every fact, valid or invalid. -/
def getAllFacts (s : MemoryEngine) : List Fact := s.facts

/-- Modelled from the spec: `searchFacts(substring)`, case-insensitive
substring match across subject/predicate/object, valid and invalid facts
both included. -/
def searchFacts (s : MemoryEngine) (sub : String) : List Fact :=
  s.facts.filter fun f => matchesTopic f sub

/-- Modelled from the spec: `getFactCount()`, count of currently-valid
facts. -/
def getFactCount (s : MemoryEngine) : Nat :=
  (s.facts.filter fun f => f.invalidAt.isNone).length

/-! ### Entity table -/

/-- Association-list lookup for entity attributes. -/
def lookupA : List (String × String) → String → Option String
  | [], _ => none
  | (k, v) :: rest, key => if k = key then some v else lookupA rest key

/-- Modelled from the spec: attribute merge on upsert — "new keys added,
existing keys overwritten" (old entries whose key reappears are replaced by
the new value). -/
def mergeAttrs (old upd : List (String × String)) : List (String × String) :=
  (old.filter fun kv => !(upd.any fun kv2 => kv2.1 == kv.1)) ++ upd

/-- The soft natural key of the entity table: `(name, type)`. -/
def entKey (x : Entity) (name : String) (ty : EntityType) : Bool :=
  x.name == name && decide (x.type = ty)

/-- Modelled from the spec: `upsert` on the entity list — update the first
entity with matching `(name, type)` (merge attributes, bump `lastSeen`,
keep `firstSeen`), else insert with `firstSeen = lastSeen = now`. -/
def upsertList : List Entity → Entity → Nat → List Entity
  | [], e, now => [{ e with firstSeen := now, lastSeen := now }]
  | x :: rest, e, now =>
    if entKey x e.name e.type then
      { x with attributes := mergeAttrs x.attributes e.attributes, lastSeen := now } :: rest
    else
      x :: upsertList rest e now

/-- Modelled from the spec: `upsert(entity)` against the store. -/
def upsert (s : MemoryEngine) (e : Entity) (now : Nat) : MemoryEngine :=
  { s with entities := upsertList s.entities e now }

/-! ### Conversation archive -/

/-- Modelled from the spec: `save(conversation)` persists the conversation
keyed by `id`, overwriting any prior save. -/
def saveConversation (s : MemoryEngine) (c : Conversation) : MemoryEngine :=
  { s with conversations := (s.conversations.filter fun x => x.id != c.id) ++ [c] }

/-- Archive ordering: most recently started first. -/
def ConvRank (c d : Conversation) : Prop := d.startedAt ≤ c.startedAt

instance : DecidableRel ConvRank := fun c d => by
  unfold ConvRank
  exact inferInstance

/-- Modelled from the spec: `list(limit)`, most-recently-started first. -/
def getConversations (s : MemoryEngine) (limit : Nat) : List Conversation :=
  (s.conversations.insertionSort ConvRank).take limit

/-! ### Record codec loading -/

/-- Modelled from the spec: the typed error produced when a stored record is
malformed. -/
structure DecodeError where
  line : String
  message : String
deriving DecidableEq

/-- Modelled from the spec: load a sequence of stored records through a
decoder.  A record that fails to decode is skipped and reported as a
warning; loading always continues with the remaining records. -/
def loadRecords (dec : String → Except DecodeError FactEvent) :
    List String → List FactEvent × List DecodeError
  | [] => ([], [])
  | l :: rest =>
    match dec l with
    | Except.ok ev => (ev :: (loadRecords dec rest).1, (loadRecords dec rest).2)
    | Except.error e => ((loadRecords dec rest).1, e :: (loadRecords dec rest).2)

/-! ### Store operation steps (for the lifecycle invariant) -/

/-- One mutating store operation.  The `invalidate` step carries the clock
assumption that every stored fact was asserted at or before `now`. -/
inductive Step : MemoryEngine → MemoryEngine → Prop
  | assertF (s : MemoryEngine) (f : Fact) : Step s (assertFact s f)
  | invalidate (s : MemoryEngine) (topic : String) (now : Nat)
      (h : ∀ f ∈ s.facts, f.validAt ≤ now) : Step s (invalidateFacts s topic now).1
  | upsertE (s : MemoryEngine) (e : Entity) (now : Nat) : Step s (upsert s e now)
  | saveConv (s : MemoryEngine) (c : Conversation) : Step s (saveConversation s c)

/-- Any finite sequence of store operations. -/
def Steps : MemoryEngine → MemoryEngine → Prop := Relation.ReflTransGen Step

/-- What a sequence of operations may do to one stored fact record: every
identifying field and `validAt` are preserved, an already-set `invalidAt`
is never unset or changed, and a valid fact may only become invalidated at
a time not preceding its `validAt`. -/
def FactPreserved (f f' : Fact) : Prop :=
  f'.id = f.id ∧ f'.subject = f.subject ∧ f'.predicate = f.predicate ∧
  f'.object = f.object ∧ f'.validAt = f.validAt ∧
  (∀ t, f.invalidAt = some t → f'.invalidAt = some t) ∧
  (f.invalidAt = none → f'.invalidAt = none ∨ ∃ t, f'.invalidAt = some t ∧ f.validAt ≤ t)

/-! ### Runtime: conversation lifecycle (from the core runtime source) -/

/-- From the core runtime's `endConversation`: stamp `endedAt`, make a
best-effort summarization call (`Except.error` models a failed call, which
is swallowed), persist the conversation, and clear the current-conversation
reference.  Returns the saved conversation (if any) and the new
current-conversation reference. -/
def endConversation (cur : Option Conversation) (now : Nat)
    (summaryResult : Except Unit String) : Option Conversation × Option Conversation :=
  match cur with
  | none => (none, none)
  | some c =>
    let c1 := { c with endedAt := some now }
    let c2 :=
      match summaryResult with
      | Except.ok s => { c1 with summary := some s }
      | Except.error _ => c1
    (some c2, none)

/-- From the core runtime's `processMessage` (conversation loading): with no
current conversation, resume the most recently stored one when it is still
open and its last message is less than 30 minutes old (a conversation with
no messages never resumes — the elapsed time is infinite); otherwise start
the fresh conversation.  The JavaScript timestamp subtraction is modelled
in `Int`. -/
def chooseConversation (cur : Option Conversation) (recent : List Conversation)
    (now : Nat) (fresh : Conversation) : Conversation :=
  match cur with
  | some c => c
  | none =>
    match recent.head? with
    | none => fresh
    | some last =>
      if last.endedAt = none then
        match last.messages.getLast? with
        | none => fresh
        | some m =>
          if (now : Int) - (m.timestamp : Int) < 30 * 60 * 1000 then last else fresh
      else fresh

/-! ### Telegram bot: splitMessage (from the bot source) -/

/-- JavaScript `String.lastIndexOf(needle, pos)`: the greatest index at most
`pos` at which `needle` occurs, if any. -/
def lastIndexFrom (hay needle : List Char) : Nat → Option Nat
  | 0 => if needle.isPrefixOf hay then some 0 else none
  | i + 1 =>
    if needle.isPrefixOf (hay.drop (i + 1)) then some (i + 1)
    else lastIndexFrom hay needle i

/-- The split position chosen by one iteration of `splitMessage`: the last
paragraph break, else the last line break, else the last sentence break, at
or before `maxLength`; defaulting to `maxLength`. -/
def splitAtIndex (remaining : List Char) (maxLength : Nat) : Nat :=
  match lastIndexFrom remaining ['\n', '\n'] maxLength with
  | some i => i
  | none =>
    match lastIndexFrom remaining ['\n'] maxLength with
    | some i => i
    | none =>
      match lastIndexFrom remaining ['.', ' '] maxLength with
      | some i => i
      | none => maxLength

/-- JavaScript `trimStart`. -/
def jsTrimStart (l : List Char) : List Char := l.dropWhile Char.isWhitespace

/-- Fuel-indexed translation of the `splitMessage` while-loop from the
Telegram bot.  `none` means the loop did not finish within `fuel`
iterations; the untranslated loop terminates on an input exactly when some
fuel suffices. -/
def splitMessageFuel : Nat → List Char → Nat → Option (List (List Char))
  | 0, _, _ => none
  | fuel + 1, remaining, maxLength =>
    if remaining.length = 0 then some []
    else if remaining.length ≤ maxLength then some [remaining]
    else
      match splitMessageFuel fuel (jsTrimStart (remaining.drop (splitAtIndex remaining maxLength))) maxLength with
      | some rest => some (remaining.take (splitAtIndex remaining maxLength) :: rest)
      | none => none

/-! ### Concrete objects for instantiations -/

/-- An empty store. -/
def engine0 : MemoryEngine := { log := [], facts := [], entities := [], conversations := [] }

/-- A concrete valid preference fact. -/
def coffeeFact : Fact :=
  { id := "f1", subject := "user", predicate := "likes", object := "coffee",
    validAt := 10, invalidAt := none, confidence := 1,
    source := FactSource.userStated, context := none }

/-! ### C3: append-log replay correctness -/

/-- Claim C3: for every store whose materialized view agrees with its log,
appending an Assert event for a fact and replaying the log from durable
storage (as on restart) yields exactly the in-memory fact set produced by
the assertion — the materialized view equals the log replay. -/
theorem mimir_c3 (s : MemoryEngine) (f : Fact) (h : replay s.log = s.facts) :
    replay (assertFact s f).log = (assertFact s f).facts := by
  show replay (s.log ++ [FactEvent.assert (normalizeFact f)]) = s.facts ++ [normalizeFact f]
  rw [replay, List.foldl_append, List.foldl_cons, List.foldl_nil]
  rw [show List.foldl applyEvent [] s.log = s.facts from h]
  rfl

/-- Concrete instantiation of C3 on the empty store and a concrete fact. -/
theorem mimir_c3_witness :
    replay engine0.log = engine0.facts ∧
    replay (assertFact engine0 coffeeFact).log = (assertFact engine0 coffeeFact).facts :=
  ⟨rfl, mimir_c3 engine0 coffeeFact rfl⟩

/-! ### C4: invalidation counting and idempotence -/

theorem invalidateFacts_filter_eq_nil (s : MemoryEngine) (topic : String) (now : Nat) :
    (invalidateFacts s topic now).1.facts.filter
      (fun f => f.invalidAt.isNone && matchesTopic f topic) = [] := by
  rw [List.filter_eq_nil_iff]
  intro a ha
  simp only [invalidateFacts, List.mem_map] at ha
  obtain ⟨b, hb, rfl⟩ := ha
  by_cases hc : (b.invalidAt.isNone && matchesTopic b topic) = true
  · simp [hc]
  · simp [hc]

/-- Claim C4: `invalidateFacts(topic)` appends one Invalidate event with
timestamp `now` per currently-valid fact matching `topic` under the
`searchFacts` substring rule and returns the number invalidated; and it is
idempotent — an immediate second call returns count 0, appends no new log
events, and leaves the fact view unchanged. -/
theorem mimir_c4 (s : MemoryEngine) (topic : String) (now now' : Nat) :
    (invalidateFacts s topic now).2
        = (s.facts.filter fun f => f.invalidAt.isNone && matchesTopic f topic).length ∧
    (invalidateFacts s topic now).1.log
        = s.log ++ (s.facts.filter fun f => f.invalidAt.isNone && matchesTopic f topic).map
            (fun f => FactEvent.invalidate f.id now) ∧
    (invalidateFacts (invalidateFacts s topic now).1 topic now').2 = 0 ∧
    (invalidateFacts (invalidateFacts s topic now).1 topic now').1.log
        = (invalidateFacts s topic now).1.log ∧
    (invalidateFacts (invalidateFacts s topic now).1 topic now').1.facts
        = (invalidateFacts s topic now).1.facts := by
  refine ⟨rfl, rfl, ?_, ?_, ?_⟩
  · show ((invalidateFacts s topic now).1.facts.filter _).length = 0
    rw [invalidateFacts_filter_eq_nil]
    rfl
  · show (invalidateFacts s topic now).1.log ++ _ = (invalidateFacts s topic now).1.log
    rw [invalidateFacts_filter_eq_nil]
    simp
  · show (invalidateFacts s topic now).1.facts.map _ = (invalidateFacts s topic now).1.facts
    have hall := List.filter_eq_nil_iff.mp (invalidateFacts_filter_eq_nil s topic now)
    conv_rhs => rw [← List.map_id (invalidateFacts s topic now).1.facts]
    exact List.map_congr_left fun f hf => by simp [hall f hf]

/-! ### C2 and C5: query-engine visibility and ranking -/

theorem mem_of_mem_rankedTake {r : Fact → Fact → Prop} [DecidableRel r] {l : List Fact}
    {n : Nat} {f : Fact} (h : f ∈ (l.insertionSort r).take n) : f ∈ l := by
  have h2 := List.take_subset n (l.insertionSort r) h
  rwa [List.mem_insertionSort] at h2

/-- Claim C2: once a fact's `invalidAt` is set, `searchRelevantFacts`,
`getRecentFacts` and `getPreferences` never return it, while `getAllFacts`
still includes it and `searchFacts` still includes it for any substring it
matches. -/
theorem mimir_c2 (s : MemoryEngine) (f : Fact) (q sub : String) (n t : Nat)
    (hf : f ∈ s.facts) (hinv : f.invalidAt = some t) :
    f ∉ searchRelevantFacts s q n ∧ f ∉ getRecentFacts s n ∧ f ∉ getPreferences s n ∧
    f ∈ getAllFacts s ∧ (matchesTopic f sub = true → f ∈ searchFacts s sub) := by
  refine ⟨?_, ?_, ?_, hf, fun hm => List.mem_filter.mpr ⟨hf, hm⟩⟩
  · intro hmem
    have h2 := (List.mem_filter.mp (mem_of_mem_rankedTake hmem)).2
    simp [hinv] at h2
  · intro hmem
    have h2 := (List.mem_filter.mp (mem_of_mem_rankedTake hmem)).2
    simp [hinv] at h2
  · intro hmem
    have h2 := (List.mem_filter.mp (mem_of_mem_rankedTake hmem)).2
    simp [hinv] at h2

/-- A concrete fact whose `invalidAt` is set. -/
def teaFactInvalid : Fact :=
  { id := "f2", subject := "user", predicate := "likes", object := "tea",
    validAt := 3, invalidAt := some 5, confidence := 1,
    source := FactSource.userStated, context := none }

/-- A concrete store containing one invalidated fact, with a log matching
its view. -/
def engineInv : MemoryEngine :=
  { log := [FactEvent.assert { teaFactInvalid with invalidAt := none },
            FactEvent.invalidate "f2" 5],
    facts := [teaFactInvalid], entities := [], conversations := [] }

/-- Concrete instantiation of C2 on a store holding an invalidated fact. -/
theorem mimir_c2_witness :
    teaFactInvalid ∈ engineInv.facts ∧ teaFactInvalid.invalidAt = some 5 ∧
    (teaFactInvalid ∉ searchRelevantFacts engineInv "tea" 10 ∧
     teaFactInvalid ∉ getRecentFacts engineInv 10 ∧
     teaFactInvalid ∉ getPreferences engineInv 10 ∧
     teaFactInvalid ∈ getAllFacts engineInv ∧
     (matchesTopic teaFactInvalid "tea" = true → teaFactInvalid ∈ searchFacts engineInv "tea")) :=
  ⟨List.mem_singleton.mpr rfl, rfl,
   mimir_c2 engineInv teaFactInvalid "tea" "tea" 10 5 (List.mem_singleton.mpr rfl) rfl⟩

/-- Claim C5: `searchRelevantFacts` returns only currently-valid facts whose
lowercase token set shares at least one token with the query's (zero-overlap
facts are excluded regardless of `limit`), and the results are ordered by
shared-token count descending with ties broken by `validAt` descending. -/
theorem mimir_c5 (s : MemoryEngine) (q : String) (n : Nat) :
    (∀ f ∈ searchRelevantFacts s q n, f.invalidAt = none ∧ 0 < score q f) ∧
    (searchRelevantFacts s q n).Pairwise (fun f g =>
      score q g < score q f ∨ (score q f = score q g ∧ g.validAt ≤ f.validAt)) := by
  constructor
  · intro f hf
    have h2 := (List.mem_filter.mp (mem_of_mem_rankedTake hf)).2
    rw [Bool.and_eq_true] at h2
    exact ⟨Option.isNone_iff_eq_none.mp h2.1, of_decide_eq_true h2.2⟩
  · have hs := List.sorted_insertionSort (RelRank q)
      (s.facts.filter fun f => f.invalidAt.isNone && decide (0 < score q f))
    exact List.Pairwise.sublist (List.take_sublist _ _) hs

/-! ### C7: malformed records are skipped, never fatal -/

theorem loadRecords_fst_append (dec : String → Except DecodeError FactEvent)
    (l₁ l₂ : List String) :
    (loadRecords dec (l₁ ++ l₂)).1 = (loadRecords dec l₁).1 ++ (loadRecords dec l₂).1 := by
  induction l₁ with
  | nil => simp [loadRecords]
  | cons a l ih =>
    rw [List.cons_append]
    cases h : dec a <;> simp [loadRecords, h, ih]

theorem loadRecords_snd_append (dec : String → Except DecodeError FactEvent)
    (l₁ l₂ : List String) :
    (loadRecords dec (l₁ ++ l₂)).2 = (loadRecords dec l₁).2 ++ (loadRecords dec l₂).2 := by
  induction l₁ with
  | nil => simp [loadRecords]
  | cons a l ih =>
    rw [List.cons_append]
    cases h : dec a <;> simp [loadRecords, h, ih]

theorem loadRecords_fst_eq_filterMap (dec : String → Except DecodeError FactEvent)
    (l : List String) :
    (loadRecords dec l).1 = l.filterMap fun x => (dec x).toOption := by
  induction l with
  | nil => simp [loadRecords]
  | cons a l ih =>
    cases h : dec a <;> simp [loadRecords, h, ih, Except.toOption]

/-- Claim C7: a malformed record yields a typed `DecodeError` and never
aborts loading — the records after it are still loaded, and the loaded
state is exactly the successfully decoded records. -/
theorem mimir_c7 (dec : String → Except DecodeError FactEvent) (pre post : List String)
    (bad : String) (err : DecodeError) (hbad : dec bad = Except.error err) :
    (loadRecords dec (pre ++ bad :: post)).1
        = (loadRecords dec pre).1 ++ (loadRecords dec post).1 ∧
    err ∈ (loadRecords dec (pre ++ bad :: post)).2 ∧
    (loadRecords dec (pre ++ bad :: post)).1
        = (pre ++ bad :: post).filterMap (fun l => (dec l).toOption) := by
  refine ⟨?_, ?_, loadRecords_fst_eq_filterMap dec _⟩
  · rw [loadRecords_fst_append]
    congr 1
    show (loadRecords dec (bad :: post)).1 = (loadRecords dec post).1
    simp [loadRecords, hbad]
  · rw [loadRecords_snd_append]
    refine List.mem_append_right _ ?_
    show err ∈ (loadRecords dec (bad :: post)).2
    simp [loadRecords, hbad]

/-- The typed error a toy decoder reports for its malformed line. -/
def corruptErr : DecodeError := { line := "corrupt", message := "malformed record" }

/-- A toy decoder: rejects the line "corrupt", accepts everything else. -/
def toyDec (s : String) : Except DecodeError FactEvent :=
  if s = "corrupt" then Except.error corruptErr
  else Except.ok (FactEvent.invalidate s 0)

/-- Concrete instantiation of C7: a corrupt line between two good ones. -/
theorem mimir_c7_witness :
    toyDec "corrupt" = Except.error corruptErr ∧
    ((loadRecords toyDec (["good1"] ++ "corrupt" :: ["good2"])).1
        = (loadRecords toyDec ["good1"]).1 ++ (loadRecords toyDec ["good2"]).1 ∧
     corruptErr ∈ (loadRecords toyDec (["good1"] ++ "corrupt" :: ["good2"])).2 ∧
     (loadRecords toyDec (["good1"] ++ "corrupt" :: ["good2"])).1
        = (["good1"] ++ "corrupt" :: ["good2"]).filterMap (fun l => (toyDec l).toOption)) :=
  ⟨by simp [toyDec], mimir_c7 toyDec ["good1"] ["good2"] "corrupt" corruptErr (by simp [toyDec])⟩

/-! ### C6: entity upsert by natural key -/

theorem lookupA_append (l₁ l₂ : List (String × String)) (k : String) :
    lookupA (l₁ ++ l₂) k = match lookupA l₁ k with
      | some v => some v
      | none => lookupA l₂ k := by
  induction l₁ with
  | nil => simp [lookupA]
  | cons a l ih =>
    obtain ⟨k₁, v₁⟩ := a
    by_cases h : k₁ = k <;> simp [lookupA, h, ih]

theorem lookupA_some_any (l : List (String × String)) (k v : String)
    (h : lookupA l k = some v) : (l.any fun kv => kv.1 == k) = true := by
  induction l with
  | nil => simp [lookupA] at h
  | cons a l ih =>
    obtain ⟨k₁, v₁⟩ := a
    by_cases hk : k₁ = k
    · simp [List.any_cons, hk]
    · rw [lookupA, if_neg hk] at h
      simp [List.any_cons, hk, ih h]

theorem lookupA_none_any (l : List (String × String)) (k : String)
    (h : lookupA l k = none) : (l.any fun kv => kv.1 == k) = false := by
  induction l with
  | nil => simp
  | cons a l ih =>
    obtain ⟨k₁, v₁⟩ := a
    by_cases hk : k₁ = k
    · rw [lookupA, if_pos hk] at h
      exact absurd h (by simp)
    · rw [lookupA, if_neg hk] at h
      simp [List.any_cons, hk, ih h]

theorem lookupA_filter_of_none (a b : List (String × String)) (k : String)
    (hb : lookupA b k = none) :
    lookupA (a.filter fun kv => !(b.any fun kv2 => kv2.1 == kv.1)) k = lookupA a k := by
  induction a with
  | nil => rfl
  | cons x l ih =>
    obtain ⟨k₁, v₁⟩ := x
    by_cases hk : k₁ = k
    · subst hk
      rw [List.filter_cons, if_pos (by simp [lookupA_none_any b k₁ hb])]
      simp [lookupA]
    · by_cases hp : (!(b.any fun kv2 => kv2.1 == k₁)) = true
      · rw [List.filter_cons, if_pos (by exact hp)]
        rw [lookupA, if_neg hk, lookupA, if_neg hk]
        exact ih
      · rw [List.filter_cons, if_neg (by exact hp)]
        rw [lookupA, if_neg hk]
        exact ih

theorem lookupA_filter_of_some (a b : List (String × String)) (k v : String)
    (hb : lookupA b k = some v) :
    lookupA (a.filter fun kv => !(b.any fun kv2 => kv2.1 == kv.1)) k = none := by
  induction a with
  | nil => rfl
  | cons x l ih =>
    obtain ⟨k₁, v₁⟩ := x
    by_cases hk : k₁ = k
    · subst hk
      rw [List.filter_cons, if_neg (by simp [lookupA_some_any b k₁ v hb])]
      exact ih
    · by_cases hp : (!(b.any fun kv2 => kv2.1 == k₁)) = true
      · rw [List.filter_cons, if_pos (by exact hp)]
        rw [lookupA, if_neg hk]
        exact ih
      · rw [List.filter_cons, if_neg (by exact hp)]
        exact ih

theorem lookupA_mergeAttrs (a b : List (String × String)) (k : String) :
    lookupA (mergeAttrs a b) k = match lookupA b k with
      | some v => some v
      | none => lookupA a k := by
  rw [mergeAttrs, lookupA_append]
  cases hb : lookupA b k with
  | some v => rw [lookupA_filter_of_some a b k v hb]
  | none =>
    rw [lookupA_filter_of_none a b k hb]
    cases ha : lookupA a k <;> simp [hb]

theorem upsertList_of_no_match (l : List Entity) (e : Entity) (now : Nat)
    (h : ∀ x ∈ l, entKey x e.name e.type = false) :
    upsertList l e now = l ++ [{ e with firstSeen := now, lastSeen := now }] := by
  induction l with
  | nil => rfl
  | cons x l ih =>
    rw [upsertList, if_neg (by simp [h x (List.mem_cons_self x l)]),
      ih fun y hy => h y (List.mem_cons_of_mem x hy), List.cons_append]

theorem upsertList_append_match (l : List Entity) (y e : Entity) (now : Nat)
    (h : ∀ x ∈ l, entKey x e.name e.type = false)
    (hy : entKey y e.name e.type = true) :
    upsertList (l ++ [y]) e now
      = l ++ [{ y with
                attributes := mergeAttrs y.attributes e.attributes,
                lastSeen := now }] := by
  induction l with
  | nil => simp [upsertList, hy]
  | cons x l ih =>
    rw [List.cons_append, upsertList, if_neg (by simp [h x (List.mem_cons_self x l)]),
      ih fun z hz => h z (List.mem_cons_of_mem x hz), List.cons_append]

/-- Claim C6: upserting twice with the same `(name, type)` into a table not
yet holding that key leaves exactly one entity with the key; its
`firstSeen` is the first call's time (unchanged by the second call), its
`lastSeen` is the second call's (advanced) time, and its attributes are the
union of both calls' attributes with the second call's values winning on
shared keys. -/
theorem mimir_c6 (s : MemoryEngine) (e₁ e₂ : Entity) (now₁ now₂ : Nat)
    (hname : e₂.name = e₁.name) (hty : e₂.type = e₁.type)
    (h0 : ∀ x ∈ s.entities, entKey x e₁.name e₁.type = false)
    (hadv : now₁ ≤ now₂) :
    ((upsert (upsert s e₁ now₁) e₂ now₂).entities.countP
        (fun x => entKey x e₁.name e₁.type) = 1) ∧
    ∃ x ∈ (upsert (upsert s e₁ now₁) e₂ now₂).entities,
      entKey x e₁.name e₁.type = true ∧ x.firstSeen = now₁ ∧ x.lastSeen = now₂ ∧
      x.firstSeen ≤ x.lastSeen ∧
      ∀ k, lookupA x.attributes k = match lookupA e₂.attributes k with
        | some v => some v
        | none => lookupA e₁.attributes k := by
  have h0' : ∀ x ∈ s.entities, entKey x e₂.name e₂.type = false := by
    rw [hname, hty]
    exact h0
  have hkey : entKey { e₁ with firstSeen := now₁, lastSeen := now₁ } e₂.name e₂.type = true := by
    simp [entKey, hname, hty]
  have hents : (upsert (upsert s e₁ now₁) e₂ now₂).entities
      = s.entities ++ [{ e₁ with
          firstSeen := now₁,
          attributes := mergeAttrs e₁.attributes e₂.attributes,
          lastSeen := now₂ }] := by
    show upsertList (upsertList s.entities e₁ now₁) e₂ now₂ = _
    rw [upsertList_of_no_match s.entities e₁ now₁ h0,
      upsertList_append_match s.entities _ e₂ now₂ h0' hkey]
  rw [hents]
  constructor
  · rw [List.countP_append, List.countP_eq_zero.mpr (fun x hx => by simp [h0 x hx])]
    simp [List.countP_cons, entKey]
  · refine ⟨_, List.mem_append_right _ (List.mem_singleton.mpr rfl),
      by simp [entKey], rfl, rfl, hadv, fun k => lookupA_mergeAttrs e₁.attributes e₂.attributes k⟩

/-- First concrete entity write: Alice the person, in Oslo, a dev. -/
def ent1 : Entity :=
  { id := "e1", name := "Alice", type := EntityType.person,
    attributes := [("city", "Oslo"), ("job", "dev")], firstSeen := 0, lastSeen := 0 }

/-- Second concrete entity write for the same `(name, type)` key. -/
def ent2 : Entity :=
  { id := "e2", name := "Alice", type := EntityType.person,
    attributes := [("job", "lead"), ("team", "core")], firstSeen := 0, lastSeen := 0 }

/-- Concrete instantiation of C6: upserting Alice twice into an empty
table. -/
theorem mimir_c6_witness :
    ent2.name = ent1.name ∧ ent2.type = ent1.type ∧ (5 : Nat) ≤ 9 ∧
    (((upsert (upsert engine0 ent1 5) ent2 9).entities.countP
        (fun x => entKey x ent1.name ent1.type) = 1) ∧
     ∃ x ∈ (upsert (upsert engine0 ent1 5) ent2 9).entities,
       entKey x ent1.name ent1.type = true ∧ x.firstSeen = 5 ∧ x.lastSeen = 9 ∧
       x.firstSeen ≤ x.lastSeen ∧
       ∀ k, lookupA x.attributes k = match lookupA ent2.attributes k with
         | some v => some v
         | none => lookupA ent1.attributes k) :=
  ⟨rfl, rfl, by omega,
   mimir_c6 engine0 ent1 ent2 5 9 rfl rfl (fun x hx => by simp [engine0] at hx) (by omega)⟩

/-! ### C8: ending a conversation survives summarization failure -/

/-- Claim C8: `endConversation` on an open conversation stamps `endedAt` and
persists the conversation for every outcome of the summarization call; on
failure it is saved with `endedAt` set and still no summary, and a summary
is only ever present once `endedAt` is set. -/
theorem mimir_c8 (c : Conversation) (now : Nat) (res : Except Unit String)
    (hopen : c.summary = none) :
    ∃ c', (endConversation (some c) now res).1 = some c' ∧
      c'.endedAt = some now ∧
      (∀ e, res = Except.error e → c'.summary = none) ∧
      (c'.summary.isSome = true → c'.endedAt.isSome = true) ∧
      (endConversation (some c) now res).2 = none := by
  cases res with
  | ok str =>
    refine ⟨{ c with endedAt := some now, summary := some str }, rfl, rfl, ?_, fun _ => rfl, rfl⟩
    intro e he
    cases he
  | error e =>
    exact ⟨{ c with endedAt := some now }, rfl, rfl, fun _ _ => hopen, fun _ => rfl, rfl⟩

/-- A concrete open conversation with one user message. -/
def conv0 : Conversation :=
  { id := "c1", startedAt := 100, endedAt := none,
    messages := [{ role := Role.user, content := "hei", timestamp := 100 }],
    summary := none }

/-- Concrete instantiation of C8: the summarization call fails, the
conversation is still persisted with `endedAt` set and no summary. -/
theorem mimir_c8_witness :
    conv0.summary = none ∧
    ∃ c', (endConversation (some conv0) 900 (Except.error ())).1 = some c' ∧
      c'.endedAt = some 900 ∧
      (∀ e, (Except.error () : Except Unit String) = Except.error e → c'.summary = none) ∧
      (c'.summary.isSome = true → c'.endedAt.isSome = true) ∧
      (endConversation (some conv0) 900 (Except.error ())).2 = none :=
  ⟨rfl, mimir_c8 conv0 900 (Except.error ()) rfl⟩

/-! ### C9: the 30-minute resume rule -/

/-- Claim C9: with no current conversation, the runtime resumes the most
recently stored conversation exactly when it is still open and its last
message is less than 30 minutes (30 * 60 * 1000 ms) old; a conversation
with no messages is never resumed, and otherwise a fresh conversation is
used. -/
theorem mimir_c9 (last fresh : Conversation) (rest : List Conversation) (now : Nat)
    (hne : fresh ≠ last) :
    (chooseConversation none (last :: rest) now fresh = last ↔
      last.endedAt = none ∧ ∃ m, last.messages.getLast? = some m ∧
        (now : Int) - (m.timestamp : Int) < 30 * 60 * 1000) ∧
    (last.messages = [] → chooseConversation none (last :: rest) now fresh = fresh) ∧
    (chooseConversation none (last :: rest) now fresh = last ∨
      chooseConversation none (last :: rest) now fresh = fresh) := by
  have hc : chooseConversation none (last :: rest) now fresh
      = if last.endedAt = none then
          match last.messages.getLast? with
          | none => fresh
          | some m =>
            if (now : Int) - (m.timestamp : Int) < 30 * 60 * 1000 then last else fresh
        else fresh := rfl
  by_cases hend : last.endedAt = none
  · cases hlast : last.messages.getLast? with
    | none =>
      have hval : chooseConversation none (last :: rest) now fresh = fresh := by
        rw [hc, if_pos hend, hlast]
      refine ⟨⟨fun h => absurd (hval.symm.trans h) hne, ?_⟩, fun _ => hval, Or.inr hval⟩
      rintro ⟨-, m, hm, -⟩
      cases hm
    | some m =>
      by_cases htime : (now : Int) - (m.timestamp : Int) < 30 * 60 * 1000
      · have hval : chooseConversation none (last :: rest) now fresh = last := by
          rw [hc, if_pos hend, hlast]
          show (if (now : Int) - (m.timestamp : Int) < 30 * 60 * 1000 then last else fresh)
            = last
          rw [if_pos htime]
        refine ⟨⟨fun _ => ⟨hend, m, rfl, htime⟩, fun _ => hval⟩, ?_, Or.inl hval⟩
        intro hempty
        rw [hempty, List.getLast?_nil] at hlast
        cases hlast
      · have hval : chooseConversation none (last :: rest) now fresh = fresh := by
          rw [hc, if_pos hend, hlast]
          show (if (now : Int) - (m.timestamp : Int) < 30 * 60 * 1000 then last else fresh)
            = fresh
          rw [if_neg htime]
        refine ⟨⟨fun h => absurd (hval.symm.trans h) hne, ?_⟩, fun _ => hval, Or.inr hval⟩
        rintro ⟨-, m', hm', ht'⟩
        cases hm'
        exact absurd ht' htime
  · have hval : chooseConversation none (last :: rest) now fresh = fresh := by
      rw [hc, if_neg hend]
    exact ⟨⟨fun h => absurd (hval.symm.trans h) hne, fun h => absurd h.1 hend⟩,
      fun _ => hval, Or.inr hval⟩

/-- A fresh conversation distinct from `conv0`. -/
def convFresh : Conversation :=
  { id := "c2", startedAt := 1000, endedAt := none, messages := [], summary := none }

/-- Concrete instantiation of C9: an open stored conversation whose last
message is 800 ms old is resumed. -/
theorem mimir_c9_witness :
    convFresh ≠ conv0 ∧
    ((chooseConversation none [conv0] 900 convFresh = conv0 ↔
       conv0.endedAt = none ∧ ∃ m, conv0.messages.getLast? = some m ∧
         ((900 : Nat) : Int) - (m.timestamp : Int) < 30 * 60 * 1000) ∧
     (conv0.messages = [] → chooseConversation none [conv0] 900 convFresh = convFresh) ∧
     (chooseConversation none [conv0] 900 convFresh = conv0 ∨
       chooseConversation none [conv0] 900 convFresh = convFresh)) :=
  ⟨by decide, mimir_c9 conv0 convFresh [] 900 (by decide)⟩

/-! ### C1: fact lifecycle invariant over all operation sequences -/

theorem factPreserved_refl (f : Fact) : FactPreserved f f :=
  ⟨rfl, rfl, rfl, rfl, rfl, fun _ h => h, fun h => Or.inl h⟩

theorem factPreserved_trans {f g h : Fact} (h₁ : FactPreserved f g)
    (h₂ : FactPreserved g h) : FactPreserved f h := by
  obtain ⟨i1, s1, p1, o1, v1, inv1, val1⟩ := h₁
  obtain ⟨i2, s2, p2, o2, v2, inv2, val2⟩ := h₂
  refine ⟨i2.trans i1, s2.trans s1, p2.trans p1, o2.trans o1, v2.trans v1, ?_, ?_⟩
  · intro t ht
    exact inv2 t (inv1 t ht)
  · intro hnone
    rcases val1 hnone with hg | ⟨t, hg, hle⟩
    · rcases val2 hg with hh | ⟨t, hh, hle⟩
      · exact Or.inl hh
      · refine Or.inr ⟨t, hh, ?_⟩
        rw [← v1]
        exact hle
    · exact Or.inr ⟨t, inv2 t hg, hle⟩

theorem step_preserves {s s' : MemoryEngine} (h : Step s s') :
    ∀ f ∈ s.facts, ∃ f' ∈ s'.facts, FactPreserved f f' := by
  intro f hf
  cases h with
  | assertF g =>
    exact ⟨f, List.mem_append_left _ hf, factPreserved_refl f⟩
  | invalidate topic now hclock =>
    refine ⟨if f.invalidAt.isNone && matchesTopic f topic then
        { f with invalidAt := some now } else f, ?_, ?_⟩
    · show _ ∈ s.facts.map fun f =>
        if f.invalidAt.isNone && matchesTopic f topic then
          { f with invalidAt := some now } else f
      exact List.mem_map_of_mem _ hf
    · by_cases hc : (f.invalidAt.isNone && matchesTopic f topic) = true
      · rw [if_pos hc]
        rw [Bool.and_eq_true] at hc
        have hnone : f.invalidAt = none := Option.isNone_iff_eq_none.mp hc.1
        refine ⟨rfl, rfl, rfl, rfl, rfl, ?_, ?_⟩
        · intro t ht
          rw [hnone] at ht
          cases ht
        · exact fun _ => Or.inr ⟨now, rfl, hclock f hf⟩
      · rw [if_neg hc]
        exact factPreserved_refl f
  | upsertE e now => exact ⟨f, hf, factPreserved_refl f⟩
  | saveConv c => exact ⟨f, hf, factPreserved_refl f⟩

/-- Claim C1: over any sequence of store operations, every stored fact
record survives (never physically removed), keeps its identifying fields
and `validAt`, an `invalidAt` once set is never unset or changed, and the
only lifecycle transition is Valid to Invalidated at a time not preceding
`validAt`. -/
theorem mimir_c1 {s s' : MemoryEngine} (h : Steps s s') :
    ∀ f ∈ s.facts, ∃ f' ∈ s'.facts, FactPreserved f f' := by
  have h' : Relation.ReflTransGen Step s s' := h
  clear h
  induction h' with
  | refl => exact fun f hf => ⟨f, hf, factPreserved_refl f⟩
  | tail h₁ h₂ ih =>
    intro f hf
    obtain ⟨g, hg, hfg⟩ := ih f hf
    obtain ⟨f', hf', hgf'⟩ := step_preserves h₂ g hg
    exact ⟨f', hf', factPreserved_trans hfg hgf'⟩

/-- Concrete instantiation of C1: one assert step over a store holding an
already-invalidated fact. -/
theorem mimir_c1_witness :
    Steps engineInv (assertFact engineInv coffeeFact) ∧
    teaFactInvalid ∈ engineInv.facts ∧
    ∃ f' ∈ (assertFact engineInv coffeeFact).facts, FactPreserved teaFactInvalid f' :=
  ⟨Relation.ReflTransGen.single (Step.assertF engineInv coffeeFact),
   List.mem_singleton.mpr rfl,
   mimir_c1 (Relation.ReflTransGen.single (Step.assertF engineInv coffeeFact))
     teaFactInvalid (List.mem_singleton.mpr rfl)⟩

/-! ### C10: the splitMessage loop does not always terminate -/

theorem lastIndexFrom_eq_none (hay needle : List Char) (pos : Nat)
    (h : ∀ i ≤ pos, needle.isPrefixOf (hay.drop i) = false) :
    lastIndexFrom hay needle pos = none := by
  induction pos with
  | zero =>
    have h0 := h 0 (Nat.le_refl 0)
    rw [List.drop_zero] at h0
    rw [lastIndexFrom, if_neg (by simp [h0])]
  | succ i ih =>
    rw [lastIndexFrom, if_neg (by simp [h (i + 1) (Nat.le_refl _)])]
    exact ih fun j hj => h j (Nat.le_succ_of_le hj)

theorem lastIndexFrom_eq_zero (hay needle : List Char) (pos : Nat)
    (h0 : needle.isPrefixOf hay = true)
    (h : ∀ i, 1 ≤ i → i ≤ pos → needle.isPrefixOf (hay.drop i) = false) :
    lastIndexFrom hay needle pos = some 0 := by
  induction pos with
  | zero => rw [lastIndexFrom, if_pos h0]
  | succ i ih =>
    rw [lastIndexFrom, if_neg (by simp [h (i + 1) (by omega) (Nat.le_refl _)])]
    exact ih fun j h1 h2 => h j h1 (by omega)

theorem head_mem_of_isPrefixOf {c : Char} {cs l : List Char}
    (h : (c :: cs).isPrefixOf l = true) : c ∈ l := by
  cases l with
  | nil => simp [List.isPrefixOf] at h
  | cons b bs =>
    rw [List.isPrefixOf, Bool.and_eq_true] at h
    rw [eq_of_beq h.1]
    exact List.mem_cons_self b bs

/-- The failing input for `splitMessage`: a sentence break at position 0
followed by 5000 letters, with no other break inside the window. -/
def badText : List Char := '.' :: ' ' :: List.replicate 5000 'a'

theorem newline_not_mem_badText : ('\n' : Char) ∉ badText := by
  intro hm
  rw [badText, List.mem_cons, List.mem_cons] at hm
  rcases hm with h | h | h
  · cases h
  · cases h
  · exact absurd (List.eq_of_mem_replicate h) (by decide)

theorem nl2_no_prefix (i : Nat) :
    (['\n', '\n'] : List Char).isPrefixOf (badText.drop i) = false := by
  by_contra hcon
  rw [Bool.not_eq_false] at hcon
  exact newline_not_mem_badText (List.drop_subset i badText (head_mem_of_isPrefixOf hcon))

theorem nl1_no_prefix (i : Nat) :
    (['\n'] : List Char).isPrefixOf (badText.drop i) = false := by
  by_contra hcon
  rw [Bool.not_eq_false] at hcon
  exact newline_not_mem_badText (List.drop_subset i badText (head_mem_of_isPrefixOf hcon))

theorem dot_not_mem_badText_drop_one : ('.' : Char) ∉ badText.drop 1 := by
  intro hm
  rw [badText] at hm
  rw [List.drop_succ_cons, List.drop_zero, List.mem_cons] at hm
  rcases hm with h | h
  · cases h
  · exact absurd (List.eq_of_mem_replicate h) (by decide)

theorem dotspace_prefix_badText : (['.', ' '] : List Char).isPrefixOf badText = true := by
  rw [badText]
  rfl

theorem dotspace_no_prefix_pos (i : Nat) (hi : 1 ≤ i) :
    (['.', ' '] : List Char).isPrefixOf (badText.drop i) = false := by
  by_contra hcon
  rw [Bool.not_eq_false] at hcon
  have hm := head_mem_of_isPrefixOf hcon
  have hdd : badText.drop i = (badText.drop 1).drop (i - 1) := by
    rw [List.drop_drop]
    congr 1
    omega
  rw [hdd] at hm
  exact dot_not_mem_badText_drop_one (List.drop_subset _ _ hm)

theorem splitAtIndex_badText : splitAtIndex badText 4096 = 0 := by
  rw [splitAtIndex,
    lastIndexFrom_eq_none badText ['\n', '\n'] 4096 fun i _ => nl2_no_prefix i,
    lastIndexFrom_eq_none badText ['\n'] 4096 fun i _ => nl1_no_prefix i,
    lastIndexFrom_eq_zero badText ['.', ' '] 4096 dotspace_prefix_badText
      fun i h1 _ => dotspace_no_prefix_pos i h1]

theorem jsTrimStart_badText : jsTrimStart badText = badText := by
  rw [jsTrimStart, badText, List.dropWhile_cons, if_neg (by decide)]

theorem badText_length : badText.length = 5002 := by
  rw [badText, List.length_cons, List.length_cons, List.length_replicate]

/-- Claim C10 fails on the code: on the input ". " followed by 5000 letters
with `maxLength = 4096`, every split position is 0 and `trimStart` removes
nothing, so the `splitMessage` loop never makes progress — no amount of
fuel lets the loop finish. -/
theorem mimir_c10_bug (fuel : Nat) : splitMessageFuel fuel badText 4096 = none := by
  induction fuel with
  | zero => rfl
  | succ n ih =>
    rw [splitMessageFuel, if_neg (by rw [badText_length]; omega),
      if_neg (by rw [badText_length]; omega), splitAtIndex_badText, List.drop_zero,
      jsTrimStart_badText, ih]

end Mimir
